import Mathlib

/-!
Verification of the market-data aggregation core: the polling-stream helper,
the Polymarket resolver/cache, the quote mappers, and the aggregation layer.
Python dicts are modelled as insertion-ordered association lists, floats as
rationals, and exceptions as `Except` results.
-/

namespace MarketDataAgg

/-- Python `dict.get(k)`: first binding for `k`, if any. -/
def dget {α : Type} (d : List (String × α)) (k : String) : Option α :=
  match d with
  | [] => none
  | (k', v) :: rest => if k' = k then some v else dget rest k

/-- Python `d[k] = v`: replace the existing binding in place, else append. -/
def dset {α : Type} (d : List (String × α)) (k : String) (v : α) : List (String × α) :=
  match d with
  | [] => [(k, v)]
  | (k', v') :: rest => if k' = k then (k, v) :: rest else (k', v') :: dset rest k v

/-- Python `str.startswith(pre)`, computed on the character list. -/
def pyStartswith (s pre : String) : Bool := pre.toList.isPrefixOf s.toList

/-- Python `str.strip()`, computed on the character list. -/
def pyStrip (s : String) : String :=
  String.mk (((s.toList.dropWhile Char.isWhitespace).reverse.dropWhile
    Char.isWhitespace).reverse)

/-- Python `str.split(",")`: split at every comma, keeping empty pieces. -/
def pySplitComma : List Char → List Char → List String
  | [], acc => [String.mk acc.reverse]
  | c :: cs, acc =>
    if c = ',' then String.mk acc.reverse :: pySplitComma cs []
    else pySplitComma cs (c :: acc)

/-! ### Polling-stream helper (`providers/core/stream_helpers.py`, `stream_by_polling`)

The loop polls `fetch_quotes(symbols)` once per round; for each quote `q` of a
round it skips when `dedup_by_value` is on and `last_values.get(q.symbol) ==
q.value`, otherwise records `last_values[q.symbol] = q.value` (when dedup is
on) and yields `q`.  Sleeping and the stop condition do not affect which
quotes a sequence of completed rounds emits, so the model is the emission
trace over a finite list of fetched rounds. -/

/-- A quote as seen by the dedup loop: only `symbol` and `value` are read. -/
structure PQuote where
  symbol : String
  value : ℚ
deriving DecidableEq

/-- State component of one `for q in quotes` pass: the `last_values` dict
after the round (lines 43-48 of `stream_helpers.py`). -/
def pollRoundLV (dedup : Bool) (lv : List (String × ℚ)) : List PQuote → List (String × ℚ)
  | [] => lv
  | q :: rest =>
    if dedup = true ∧ dget lv q.symbol = some q.value then pollRoundLV dedup lv rest
    else pollRoundLV dedup (if dedup then dset lv q.symbol q.value else lv) rest

/-- Output component of one `for q in quotes` pass: the quotes yielded during
the round (lines 43-48 of `stream_helpers.py`). -/
def pollRoundOut (dedup : Bool) (lv : List (String × ℚ)) : List PQuote → List PQuote
  | [] => []
  | q :: rest =>
    if dedup = true ∧ dget lv q.symbol = some q.value then pollRoundOut dedup lv rest
    else q :: pollRoundOut dedup (if dedup then dset lv q.symbol q.value else lv) rest

/-- Emission trace of the polling loop over successive fetched rounds,
threading `last_values` between rounds. -/
def streamRoundsOut (dedup : Bool) (lv : List (String × ℚ)) : List (List PQuote) → List PQuote
  | [] => []
  | r :: rs => pollRoundOut dedup lv r ++ streamRoundsOut dedup (pollRoundLV dedup lv r) rs

/-- `stream_by_polling`: returns immediately when `symbols` is empty
(line 32), else runs the polling loop with an initially empty `last_values`
dict (line 37). -/
def stream_by_polling_emits (symbols : List String) (dedup : Bool)
    (rounds : List (List PQuote)) : List PQuote :=
  if symbols = [] then [] else streamRoundsOut dedup [] rounds

/-- Reference single-symbol dedup trace: emit a value exactly when it differs
from the comparison state, which is then updated to the emitted value. -/
def dedupTrace (last : Option ℚ) : List ℚ → List ℚ
  | [] => []
  | v :: vs => if last = some v then dedupTrace last vs else v :: dedupTrace (some v) vs

/-- Final comparison state of `dedupTrace`. -/
def dedupLast (last : Option ℚ) : List ℚ → Option ℚ
  | [] => last
  | v :: vs => if last = some v then dedupLast last vs else dedupLast (some v) vs

/-- The values carried by the quotes of symbol `s` within one round, in order. -/
def valsFor (s : String) (r : List PQuote) : List ℚ :=
  (r.filter (fun q => q.symbol == s)).map PQuote.value

/-- The values carried by the quotes of symbol `s` across rounds, in order. -/
def valsForRounds (s : String) (rounds : List (List PQuote)) : List ℚ :=
  (rounds.map (valsFor s)).flatten

/-! ### Concurrent streaming sessions (C3)

Cooperative-scheduling model of two streaming sessions against one singleton
provider.  For `stream_by_polling` a session's loop guard (lines 39-41) is
`(stop_event is not None and not stop_event.is_set()) or (stop_event is None
and provider.streaming)`; on entry a session without its own event sets the
shared `provider.streaming` flag (lines 34-36) and its `finally` clears it
(lines 50-52).  A schedule is an explicit list of interleaved moves; `stopA`/
`stopB` model the caller setting that session's own `asyncio.Event`. -/

/-- One invocation of `stream_by_polling`: its per-invocation arguments and
loop state.  `rounds` are the successive `fetch_quotes` results this session
will observe. -/
structure PollSession where
  hasEvent : Bool
  eventSet : Bool
  started : Bool
  finished : Bool
  rounds : List (List PQuote)
  lastValues : List (String × ℚ)
  emitted : List PQuote
deriving DecidableEq

/-- Loop guard of `stream_by_polling` (lines 39-41). -/
def loopCond (s : PollSession) (streaming : Bool) : Bool :=
  if s.hasEvent then !s.eventSet else streaming

/-- One scheduler slice of a polling session: entry (lines 34-36), guard
check, one poll round (lines 42-48), or exit with the `finally` clause
(lines 50-52).  Exhausted `rounds` model the end of the session's observation
window (the generator being closed), which also runs the `finally`. -/
def sessionStep (s : PollSession) (streaming : Bool) : PollSession × Bool :=
  if s.finished then (s, streaming)
  else if s.started = false then
    ({ s with started := true }, if s.hasEvent then streaming else true)
  else if loopCond s streaming then
    match s.rounds with
    | [] => ({ s with finished := true }, if s.hasEvent then streaming else false)
    | r :: rest =>
        ({ s with rounds := rest,
                  lastValues := pollRoundLV true s.lastValues r,
                  emitted := s.emitted ++ pollRoundOut true s.lastValues r }, streaming)
  else ({ s with finished := true }, if s.hasEvent then streaming else false)

/-- Two sessions A and B sharing one provider instance (`provider.streaming`
is the shared mutable flag). -/
structure PollPair where
  streaming : Bool
  a : PollSession
  b : PollSession
deriving DecidableEq

/-- A scheduler move: run one slice of a session, or set a session's own
stop event from its caller. -/
inductive Move
  | stepA
  | stepB
  | stopA
  | stopB
deriving DecidableEq

def applyMove (st : PollPair) : Move → PollPair
  | .stepA =>
      let p := sessionStep st.a st.streaming
      { st with a := p.1, streaming := p.2 }
  | .stepB =>
      let p := sessionStep st.b st.streaming
      { st with b := p.1, streaming := p.2 }
  | .stopA => { st with a := { st.a with eventSet := true } }
  | .stopB => { st with b := { st.b with eventSet := true } }

def runPoll (st : PollPair) (ms : List Move) : PollPair := ms.foldl applyMove st

/-- Session B running alone: only B's moves act on it. -/
def soloStepB (s : PollSession) : Move → PollSession
  | .stepB => (sessionStep s true).1
  | .stopB => { s with eventSet := true }
  | _ => s

def runSoloB (s : PollSession) (ms : List Move) : PollSession := ms.foldl soloStepB s

/-! ### The prediction-market WebSocket stream
(`providers/predictions/polymarket/polymarket_provider.py`, `stream`,
lines 85-113).  The method takes no stop-event parameter; its loop guard is
the provider-wide `self._streaming` (line 97), set `True` on entry (line 85)
and cleared in the `finally` clause (line 112) — state shared by every
session on the singleton provider instance. -/

/-- One invocation of the WebSocket `stream`: connection state plus the
inbound messages (prices) it will receive before its connection closes. -/
structure WsSession where
  started : Bool
  finished : Bool
  msgs : List ℚ
  emitted : List ℚ
deriving DecidableEq

/-- One scheduler slice of a WebSocket stream session: entry (line 85,
setting the shared flag), guard check on the shared flag (line 97), one
received message, or connection close / guard failure running the `finally`
(line 112, clearing the shared flag). -/
def wsStep (s : WsSession) (streaming : Bool) : WsSession × Bool :=
  if s.finished then (s, streaming)
  else if s.started = false then ({ s with started := true }, true)
  else if streaming then
    match s.msgs with
    | [] => ({ s with finished := true }, false)
    | m :: rest => ({ s with msgs := rest, emitted := s.emitted ++ [m] }, streaming)
  else ({ s with finished := true }, false)

/-- Two WebSocket stream sessions sharing one provider's `_streaming` flag. -/
structure WsPair where
  streaming : Bool
  a : WsSession
  b : WsSession
deriving DecidableEq

inductive WsMove
  | stepA
  | stepB
deriving DecidableEq

def wsApply (st : WsPair) : WsMove → WsPair
  | .stepA =>
      let p := wsStep st.a st.streaming
      { st with a := p.1, streaming := p.2 }
  | .stepB =>
      let p := wsStep st.b st.streaming
      { st with b := p.1, streaming := p.2 }

def wsRun (st : WsPair) (ms : List WsMove) : WsPair := ms.foldl wsApply st

/-! ### Polymarket data model

`RawMarket` models the raw Gamma-API market dict.  `outcomes` and
`outcomePrices` are modelled after their JSON decode (both the string and the
already-decoded-list wire shapes yield the same list; `none` = key absent).
`clobTokenIds` keeps the string/list distinction because `cache.set` iterates
the raw value without parsing it. -/

/-- The raw `clobTokenIds` payload: absent, a JSON-encoded string, or an
already-decoded list. -/
inductive ClobTokens
  | missing
  | jsonStr (s : String)
  | arr (l : List String)
deriving DecidableEq

/-- Python iteration over `market.get("clobTokenIds", [])`: a missing key
iterates nothing, a list iterates its elements, and a *string* iterates its
characters (each a one-character string). -/
def clobIter : ClobTokens → List String
  | .missing => []
  | .jsonStr s => s.toList.map (fun c => String.mk [c])
  | .arr l => l

structure RawMarket where
  slug : Option String := none
  conditionId : Option String := none
  question : Option String := none
  outcomes : Option (List String) := none
  outcomePrices : Option (List ℚ) := none
  clobTokenIds : ClobTokens := .missing
  volume : Option ℚ := none
  updatedAt : Option String := none
deriving DecidableEq

inductive Source
  | stock
  | crypto
  | polymarket
  | predictions
deriving DecidableEq

/-- A quote timestamp: parsed from the upstream `updatedAt`, or the capture
time (`datetime.utcnow()`) when the upstream omits one. -/
inductive Timestamp
  | parsed (iso : String)
  | captureTime
deriving DecidableEq

/-- The open metadata bag; only `change_24h` is read by the claims under
check (the aggregation layer's sort key). -/
structure Metadata where
  change_24h : Option ℚ := none
deriving DecidableEq

/-- `MarketQuote` (schemas): `value` and `timestamp` are non-optional. -/
structure MarketQuote where
  source : Source
  symbol : String
  value : ℚ
  volume : Option ℚ := none
  timestamp : Timestamp := .captureTime
  metadata : Option Metadata := none
deriving DecidableEq

inductive PError
  | notFound (msg : String)
  | unsupported
deriving DecidableEq

/-- `parse_outcome_prices` (mapper.py lines 11-28): `market.get
("outcomePrices", "[]")` decoded to a list of probabilities; a missing key
yields `[]`. -/
def parse_outcome_prices (m : RawMarket) : List ℚ := m.outcomePrices.getD []

/-- `parse_outcomes` (mapper.py lines 31-43). -/
def parse_outcomes (m : RawMarket) : List String := m.outcomes.getD []

/-- Timestamp selection of the mappers: `updatedAt` when present, else
capture time.  (A string `datetime.fromisoformat` rejects also falls back to
capture time; no claim depends on that case.) -/
def tsOf (m : RawMarket) : Timestamp :=
  match m.updatedAt with
  | some s => .parsed s
  | none => .captureTime

/-- `market_to_quote` (mapper.py lines 46-94, duplicated as
`PolymarketProvider._market_to_quote` in provider.py lines 136-186): the
value is `prices[outcome_index]` when the index is in range, else `0.0`. -/
def market_to_quote (m : RawMarket) (outcome_index : Nat := 0) : MarketQuote :=
  let prices := parse_outcome_prices m
  let slug := m.slug.getD (m.conditionId.getD ("unknown"))
  { source := .polymarket
    symbol := slug
    value := prices.getD outcome_index 0
    volume := m.volume
    timestamp := tsOf m
    metadata := some {} }

/-- Python `max` over a list (callers guard against `[]`). -/
def listMax : List ℚ → ℚ
  | [] => 0
  | p :: ps => ps.foldl max p

/-- Python string truthiness: `None` and `""` are falsy. -/
def truthy : Option String → Option String
  | some s => if s = "" then none else some s
  | none => none

/-- `PolymarketMarketDTO.value` (dto.py lines 145-150): the max outcome
probability, `0.0` when the parsed price list is empty. -/
def dtoValue (m : RawMarket) : ℚ :=
  let prices := parse_outcome_prices m
  if prices = [] then 0 else listMax prices

/-- `PolymarketMarketDTO.symbol` (dto.py lines 169-173):
`question or slug or condition_id or "unknown"`. -/
def dtoSymbol (m : RawMarket) : String :=
  (((truthy m.question).orElse (fun _ => truthy m.slug)).orElse
    (fun _ => truthy m.conditionId)).getD ("unknown")

/-- `PolymarketMarketDTO.to_market_quote` (dto.py lines 215-224). -/
def dto_to_market_quote (m : RawMarket) : MarketQuote :=
  { source := .predictions
    symbol := dtoSymbol m
    value := dtoValue m
    volume := m.volume
    timestamp := tsOf m
    metadata := some {} }

/-- `PolymarketProvider._fetch_market` + `get_quote`
(predictions/polymarket/polymarket_provider.py lines 42-68): fetch by slug
from the catalog (`none` models an empty result list, raised as
`ValueError`/NotFound), then `dto.to_market_quote()`. -/
def predictions_get_quote (catalog : String → Option RawMarket)
    (symbol : String) : Except PError MarketQuote :=
  match catalog symbol with
  | none => .error (.notFound symbol)
  | some m => .ok (dto_to_market_quote m)

/-- `get_history` on the predictions provider
(predictions/polymarket/polymarket_provider.py): no override, so the
`MarketProviderABC.get_history` default applies (market_provider_abc.py
lines 54-70), raising `NotImplementedError` — the Unsupported failure — for
every symbol and range. -/
def predictions_get_history (symbol : String) (startT endT : Nat) :
    Except PError (List MarketQuote) :=
  .error .unsupported

/-! ### Polymarket cache and resolver (`providers/polymarket/cache.py`,
`resolver.py`) -/

structure PolymarketMarketCache where
  by_slug : List (String × RawMarket) := []
  by_condition_id : List (String × String) := []
  token_to_slug_outcome : List (String × (String × Nat)) := []
deriving DecidableEq

def emptyCache : PolymarketMarketCache := {}

/-- `PolymarketMarketCache.get` (cache.py lines 18-30): by slug first, else
through the condition-id secondary index (a falsy mapped slug yields
`None`). -/
def PolymarketMarketCache.get (c : PolymarketMarketCache) (key : String) :
    Option RawMarket :=
  match dget c.by_slug key with
  | some m => some m
  | none =>
    match dget c.by_condition_id key with
    | none => none
    | some slug => if slug = "" then none else dget c.by_slug slug

/-- `PolymarketMarketCache.set` (cache.py lines 32-47): store under the slug,
index a truthy `conditionId`, and record `token_id -> (slug, i)` for each
element Python iteration yields from the raw `clobTokenIds` value. -/
def PolymarketMarketCache.set (c : PolymarketMarketCache) (slug : String)
    (market : RawMarket) : PolymarketMarketCache :=
  let bySlug := dset c.by_slug slug market
  let byCond :=
    match market.conditionId with
    | some cid => if cid = "" then c.by_condition_id else dset c.by_condition_id cid slug
    | none => c.by_condition_id
  let tokens := (clobIter market.clobTokenIds).enum.foldl
      (fun t p => dset t p.2 (slug, p.1)) c.token_to_slug_outcome
  { by_slug := bySlug, by_condition_id := byCond, token_to_slug_outcome := tokens }

/-- `PolymarketMarketCache.get_slug_for_token` (cache.py lines 49-58). -/
def PolymarketMarketCache.get_slug_for_token (c : PolymarketMarketCache)
    (token_id : String) : Option (String × Nat) :=
  dget c.token_to_slug_outcome token_id

/-- `PolymarketMarketCache.clear` (cache.py lines 60-64): empties all three
maps in the one call. -/
def PolymarketMarketCache.clear (_c : PolymarketMarketCache) :
    PolymarketMarketCache :=
  emptyCache

/-- The Gamma catalog upstream: `GET /markets?slug=...&limit=1` and
`GET /markets?condition_id=...&limit=1`; `none` models an empty result list
(HTTP-level failures are out of scope of the claims). -/
structure GammaUpstream where
  fetchBySlug : String → Option RawMarket
  fetchByConditionId : String → Option RawMarket

instance {ε α : Type} [DecidableEq ε] [DecidableEq α] : DecidableEq (Except ε α) :=
  fun a b =>
    match a, b with
    | .ok x, .ok y => decidable_of_iff (x = y) (by simp)
    | .error e, .error f => decidable_of_iff (e = f) (by simp)
    | .ok _, .error _ => isFalse (by simp)
    | .error _, .ok _ => isFalse (by simp)

/-- Outcome of one `resolve` call: the result, the updated cache, and how
many upstream catalog fetches the call issued. -/
structure ResolveResult where
  result : Except PError RawMarket
  cache : PolymarketMarketCache
  fetches : Nat
deriving DecidableEq

/-- `PolymarketSymbolResolver.resolve` (resolver.py lines 32-86): cache
first; on a miss fetch by condition id for `0x`-prefixed symbols, else by
slug; an empty catalog answer raises NotFound; a fetched market is cached
under `market.get("slug", <requested>)`. -/
def resolve (u : GammaUpstream) (c : PolymarketMarketCache) (symbol : String) :
    ResolveResult :=
  match c.get symbol with
  | some m => ⟨.ok m, c, 0⟩
  | none =>
    if pyStartswith symbol ("0x") then
      match u.fetchByConditionId symbol with
      | none => ⟨.error (.notFound symbol), c, 1⟩
      | some market => ⟨.ok market, c.set (market.slug.getD symbol) market, 1⟩
    else
      match u.fetchBySlug symbol with
      | none => ⟨.error (.notFound symbol), c, 1⟩
      | some market => ⟨.ok market, c.set (market.slug.getD symbol) market, 1⟩

/-- `PolymarketProvider._get_market` (provider.py lines 93-114): its own
`_market_cache` dict first; non-hex symbols try the slug fetch with the
`ValueError` caught (lines 110-111) to fall through to the condition-id
fetch.  (The `_token_to_market` bookkeeping of lines 64-67/87-89 is modelled
on the resolver/cache path, which the claims cite.) -/
def legacy_get_market (u : GammaUpstream) (cache : List (String × RawMarket))
    (symbol : String) : Except PError (RawMarket × List (String × RawMarket)) :=
  match dget cache symbol with
  | some m => .ok (m, cache)
  | none =>
    let byCond : Except PError (RawMarket × List (String × RawMarket)) :=
      match u.fetchByConditionId symbol with
      | none => .error (.notFound symbol)
      | some market => .ok (market, dset cache (market.slug.getD symbol) market)
    if pyStartswith symbol ("0x") then byCond
    else
      match u.fetchBySlug symbol with
      | none => byCond
      | some market => .ok (market, dset cache symbol market)

/-- `PolymarketProvider.get_quote` (provider.py lines 188-198). -/
def legacy_get_quote (u : GammaUpstream) (cache : List (String × RawMarket))
    (symbol : String) : Except PError MarketQuote :=
  match legacy_get_market u cache symbol with
  | .error e => .error e
  | .ok (m, _) => .ok (market_to_quote m 0)

/-- `PolymarketProvider.get_history` (provider.py lines 200-221): fetches
the market and returns the *current* quote as a one-element list; `start`
and `end` are ignored. -/
def legacy_get_history (u : GammaUpstream) (cache : List (String × RawMarket))
    (symbol : String) (startT endT : Nat) : Except PError (List MarketQuote) :=
  match legacy_get_market u cache symbol with
  | .error e => .error e
  | .ok (m, _) => .ok [market_to_quote m 0]

/-- `[tid.strip() for tid in raw.split(",") if tid.strip()]`
(dto.py line 52). -/
def commaSplitClean (s : String) : List String :=
  ((pySplitComma s.toList []).map pyStrip).filter (fun t => t != "")

/-- One JSON string literal (escape-free, the shape token ids take):
opening quote, content, closing quote; returns the content and the rest. -/
def parseJsonString : List Char → Option (String × List Char)
  | '"' :: cs =>
    let content := cs.takeWhile (fun c => c != '"')
    match cs.dropWhile (fun c => c != '"') with
    | '"' :: rest => some (String.mk content, rest)
    | _ => none
  | _ => none

/-- Elements of a JSON string array after the opening bracket (fuelled by
input length). -/
def jsonArrayElems : Nat → List Char → Option (List String)
  | 0, _ => none
  | fuel + 1, cs =>
    match parseJsonString (cs.dropWhile (fun c => c == ' ')) with
    | none => none
    | some (s, rest) =>
      match rest.dropWhile (fun c => c == ' ') with
      | ',' :: rest' =>
        match jsonArrayElems fuel rest' with
        | some ss => some (s :: ss)
        | none => none
      | ']' :: rest' =>
        if rest'.dropWhile (fun c => c == ' ') = [] then some [s] else none
      | _ => none

/-- `json.loads` restricted to arrays of escape-free string literals — the
only well-formed shape the `clobTokenIds` wire string takes. -/
def jsonStringArray (s : String) : Option (List String) :=
  match (pyStrip s).toList with
  | '[' :: cs =>
    match cs.dropWhile (fun c => c == ' ') with
    | ']' :: rest => if rest.dropWhile (fun c => c == ' ') = [] then some [] else none
    | _ => jsonArrayElems (s.length + 1) cs
  | _ => none

/-- `_parse_clob_token_ids` (dto.py lines 43-53): a string starting with
`[` is JSON-decoded (falling back to comma-splitting on decode failure);
other strings are comma-split; lists pass through. -/
def _parse_clob_token_ids (raw : ClobTokens) : List String :=
  match raw with
  | .missing => []
  | .arr l => l
  | .jsonStr s =>
    if pyStartswith (pyStrip s) ("[") then
      match jsonStringArray s with
      | some l => l
      | none => commaSplitClean s
    else commaSplitClean s

/-! ### Aggregation layer (`services/markets_service.py`) -/

/-- `_gather_overview` (markets_service.py lines 25-35): the per-provider
results of `asyncio.gather(..., return_exceptions=True)`; failures are
skipped, successes extend the flat quote list.  Total by construction — no
combination of provider failures raises. -/
def _gather_overview (results : List (Except PError (List MarketQuote))) :
    List MarketQuote :=
  results.foldl (fun quotes result =>
    match result with
    | .ok qs => quotes ++ qs
    | .error _ => quotes) []

/-- `MarketsService.get_overview` (markets_service.py lines 182-183; the
markets.py variant at lines 33-47 gathers the same three providers). -/
def get_overview (stocks crypto predictions : Except PError (List MarketQuote)) :
    List MarketQuote :=
  _gather_overview [stocks, crypto, predictions]

/-- `_change_key` (markets_service.py lines 19-22): `abs(change_24h)`, `0.0`
when the metadata bag or the key is missing. -/
def _change_key (q : MarketQuote) : ℚ :=
  match q.metadata with
  | none => 0
  | some md =>
    match md.change_24h with
    | none => 0
    | some v => |v|

/-- Insert a quote into a list sorted descending by `_change_key`, after all
entries of greater-or-equal key (the stable position). -/
def insertDesc (x : MarketQuote) : List MarketQuote → List MarketQuote
  | [] => [x]
  | y :: ys => if _change_key y < _change_key x then x :: y :: ys else y :: insertDesc x ys

/-- `quotes.sort(key=_change_key, reverse=True)`: Python's sort is stable,
so it computes the unique stable descending order — modelled by stable
insertion sort. -/
def sortByChangeDesc (quotes : List MarketQuote) : List MarketQuote :=
  quotes.foldl (fun acc q => insertDesc q acc) []

/-- `MarketsService.get_top_movers` (markets_service.py lines 189-200),
given the combined overview quotes: stable-sort descending by `_change_key`,
truncate to `limit`. -/
def get_top_movers (quotes : List MarketQuote) (limit : Nat) : List MarketQuote :=
  (sortByChangeDesc quotes).take limit

/-- A market present upstream whose outcome-price array is empty. -/
def c2Market : RawMarket :=
  { slug := some ("new-market"), conditionId := some ("0xc2fe"),
    question := some ("Will it happen?"),
    outcomes := some ["Yes", "No"], outcomePrices := some [] }

def c2Catalog : String → Option RawMarket :=
  fun s => if s = "new-market" then some c2Market else none

/-- A concrete market for the resolver/cache claims (integer-valued
probabilities keep kernel evaluation cheap). -/
def c5Market : RawMarket :=
  { slug := some ("will-btc-hit-100k"), conditionId := some ("0xabc123"),
    question := some ("Will BTC hit 100k?"),
    outcomes := some ["Yes", "No"], outcomePrices := some [1, 0],
    clobTokenIds := .arr ["111", "222"], volume := some 1000 }

def c5Upstream : GammaUpstream :=
  { fetchBySlug := fun s => if s = "will-btc-hit-100k" then some c5Market else none
    fetchByConditionId := fun c => if c = "0xabc123" then some c5Market else none }

/-- The raw wire form of a two-outcome market's token ids: a JSON-encoded
string, as the Gamma API transmits the field. -/
def c7TokenStr : String := "[\"11111\",\"22222\"]"

def c7Market : RawMarket :=
  { slug := some ("btc-100k"), conditionId := some ("0xc7"),
    outcomes := some ["Yes", "No"], outcomePrices := some [1, 0],
    clobTokenIds := .jsonStr c7TokenStr }

def c7Upstream : GammaUpstream :=
  { fetchBySlug := fun s => if s = "btc-100k" then some c7Market else none
    fetchByConditionId := fun _ => none }

def c8Market : RawMarket :=
  { slug := some ("election-2026"), conditionId := some ("0xc8"),
    outcomes := some ["Yes", "No"], outcomePrices := some [1, 0] }

def c8Upstream : GammaUpstream :=
  { fetchBySlug := fun s => if s = "election-2026" then some c8Market else none
    fetchByConditionId := fun _ => none }

/-- The descending order on `_change_key` used by top-movers. -/
def changeGE (a b : MarketQuote) : Prop := _change_key b ≤ _change_key a

def c9A : MarketQuote :=
  { source := .stock, symbol := "AAPL", value := 100,
    metadata := some { change_24h := some 5 } }

def c9B : MarketQuote :=
  { source := .crypto, symbol := "bitcoin", value := 50000,
    metadata := some { change_24h := some (-12) } }

def c9C : MarketQuote :=
  { source := .predictions, symbol := "will-x-happen", value := 1,
    metadata := none }

def c9D : MarketQuote :=
  { source := .stock, symbol := "MSFT", value := 200,
    metadata := some { change_24h := some 3 } }

def c3SessionA : PollSession :=
  { hasEvent := true, eventSet := false, started := false, finished := false,
    rounds := [[⟨"AAPL", 10⟩], [⟨"AAPL", 11⟩]], lastValues := [], emitted := [] }

def c3SessionB : PollSession :=
  { hasEvent := true, eventSet := false, started := false, finished := false,
    rounds := [[⟨"AAPL", 10⟩], [⟨"AAPL", 12⟩]], lastValues := [], emitted := [] }

def c3Pair : PollPair := { streaming := false, a := c3SessionA, b := c3SessionB }

def c3Sched : List Move := [.stepA, .stepB, .stopA, .stepA, .stepB, .stepB, .stepB]

def c3WsInit : WsPair :=
  { streaming := false,
    a := { started := false, finished := false, msgs := [1], emitted := [] },
    b := { started := false, finished := false, msgs := [2, 3], emitted := [] } }

/-! ## Theorems -/

theorem dget_dset_self {α : Type} (d : List (String × α)) (k : String) (v : α) :
    dget (dset d k v) k = some v := by
  induction d with
  | nil => simp [dget, dset]
  | cons hd tl ih =>
    obtain ⟨k', v'⟩ := hd
    by_cases h : k' = k <;> simp [dget, dset, h, ih]

theorem dget_dset_ne {α : Type} (d : List (String × α)) {k s : String} (v : α)
    (h : k ≠ s) : dget (dset d k v) s = dget d s := by
  induction d with
  | nil => simp [dget, dset, h]
  | cons hd tl ih =>
    obtain ⟨k', v'⟩ := hd
    by_cases hk : k' = k
    · subst hk
      simp [dget, dset, h]
    · simp [dget, dset, hk, ih]

theorem pollRoundLV_proj (s : String) (r : List PQuote) (lv : List (String × ℚ)) :
    dget (pollRoundLV true lv r) s = dedupLast (dget lv s) (valsFor s r) := by
  induction r generalizing lv with
  | nil => simp [pollRoundLV, valsFor, dedupLast]
  | cons q rest ih =>
    by_cases hs : q.symbol = s
    · subst hs
      by_cases hv : dget lv q.symbol = some q.value
      · simp only [pollRoundLV]
        rw [if_pos ⟨trivial, hv⟩, ih]
        simp [valsFor, List.filter_cons, dedupLast, hv]
      · simp only [pollRoundLV]
        rw [if_neg (fun hc => hv hc.2), if_pos trivial, ih, dget_dset_self]
        simp [valsFor, List.filter_cons, dedupLast, hv]
    · have hbe : (q.symbol == s) = false := by simp [hs]
      by_cases hv : dget lv q.symbol = some q.value
      · simp only [pollRoundLV]
        rw [if_pos ⟨trivial, hv⟩, ih]
        simp [valsFor, List.filter_cons, hbe]
      · simp only [pollRoundLV]
        rw [if_neg (fun hc => hv hc.2), if_pos trivial, ih, dget_dset_ne _ _ hs]
        simp [valsFor, List.filter_cons, hbe]

theorem pollRoundOut_proj (s : String) (r : List PQuote) (lv : List (String × ℚ)) :
    (pollRoundOut true lv r).filter (fun q => q.symbol == s)
      = (dedupTrace (dget lv s) (valsFor s r)).map (fun v => PQuote.mk s v) := by
  induction r generalizing lv with
  | nil => simp [pollRoundOut, valsFor, dedupTrace]
  | cons q rest ih =>
    by_cases hs : q.symbol = s
    · subst hs
      by_cases hv : dget lv q.symbol = some q.value
      · simp only [pollRoundOut]
        rw [if_pos ⟨trivial, hv⟩, ih]
        simp [valsFor, List.filter_cons, dedupTrace, hv]
      · simp only [pollRoundOut]
        rw [if_neg (fun hc => hv hc.2), if_pos trivial, List.filter_cons]
        simp only [beq_self_eq_true, if_pos]
        rw [ih, dget_dset_self]
        simp [valsFor, List.filter_cons, dedupTrace, hv]
    · have hbe : (q.symbol == s) = false := by simp [hs]
      by_cases hv : dget lv q.symbol = some q.value
      · simp only [pollRoundOut]
        rw [if_pos ⟨trivial, hv⟩, ih]
        simp [valsFor, List.filter_cons, hbe]
      · simp only [pollRoundOut]
        rw [if_neg (fun hc => hv hc.2), if_pos trivial, List.filter_cons]
        simp only [hbe]
        rw [ih, dget_dset_ne _ _ hs]
        simp [valsFor, List.filter_cons, hbe]

theorem dedupTrace_append (o : Option ℚ) (xs ys : List ℚ) :
    dedupTrace o (xs ++ ys) = dedupTrace o xs ++ dedupTrace (dedupLast o xs) ys := by
  induction xs generalizing o with
  | nil => simp [dedupTrace, dedupLast]
  | cons v vs ih =>
    by_cases h : o = some v <;> simp [dedupTrace, dedupLast, h, ih]

theorem dedupLast_append (o : Option ℚ) (xs ys : List ℚ) :
    dedupLast o (xs ++ ys) = dedupLast (dedupLast o xs) ys := by
  induction xs generalizing o with
  | nil => simp [dedupLast]
  | cons v vs ih =>
    by_cases h : o = some v <;> simp [dedupLast, h, ih]

theorem streamRoundsOut_proj (s : String) (rounds : List (List PQuote))
    (lv : List (String × ℚ)) :
    (streamRoundsOut true lv rounds).filter (fun q => q.symbol == s)
      = (dedupTrace (dget lv s) (valsForRounds s rounds)).map (fun v => PQuote.mk s v) := by
  induction rounds generalizing lv with
  | nil => simp [streamRoundsOut, valsForRounds, dedupTrace]
  | cons r rs ih =>
    simp only [streamRoundsOut, List.filter_append]
    rw [pollRoundOut_proj, ih, pollRoundLV_proj]
    simp [valsForRounds, dedupTrace_append]

/-- The comparison state of the dedup loop is exactly the last emitted value
(or the initial state when nothing was emitted). -/
theorem dedupLast_eq_getLast (o : Option ℚ) (vs : List ℚ) :
    dedupLast o vs = if dedupTrace o vs = [] then o else (dedupTrace o vs).getLast? := by
  induction vs generalizing o with
  | nil => simp [dedupTrace, dedupLast]
  | cons v tl ih =>
    by_cases h : o = some v
    · simp [dedupTrace, dedupLast, h, ih]
    · simp only [dedupTrace, dedupLast, h, if_neg, not_false_iff]
      rw [ih]
      by_cases he : dedupTrace (some v) tl = []
      · simp [he]
      · obtain ⟨x, xs, hx⟩ := List.exists_cons_of_ne_nil he
        simp [he, hx, List.getLast?_cons_cons]

/-- C1: With dedup enabled, the quotes `stream_by_polling` emits for a symbol
`s` are exactly the dedup trace of `s`'s fetched values: the first fetched
value is always emitted; a later value is emitted iff it differs from the
comparison state, which is always the last emitted value; a value identical
across three consecutive rounds is emitted exactly once. -/
theorem c1_polling_dedup_emission (sym : String) (symbols : List String)
    (s : String) (rounds : List (List PQuote)) :
    (stream_by_polling_emits (sym :: symbols) true rounds).filter (fun q => q.symbol == s)
        = (dedupTrace none (valsForRounds s rounds)).map (fun v => PQuote.mk s v)
    ∧ (∀ v vs, dedupTrace none (v :: vs) = v :: dedupTrace (some v) vs)
    ∧ (∀ l v vs, dedupTrace (some l) (v :: vs)
        = if l = v then dedupTrace (some l) vs else v :: dedupTrace (some v) vs)
    ∧ (∀ o vs, dedupLast o vs
        = if dedupTrace o vs = [] then o else (dedupTrace o vs).getLast?)
    ∧ (∀ v, dedupTrace none [v, v, v] = [v]) := by
  refine ⟨?_, ?_, ?_, dedupLast_eq_getLast, ?_⟩
  · unfold stream_by_polling_emits
    rw [if_neg (List.cons_ne_nil sym symbols)]
    have h := streamRoundsOut_proj s rounds []
    simpa [dget] using h
  · intro v vs
    simp [dedupTrace]
  · intro l v vs
    by_cases h : l = v
    · subst h
      simp [dedupTrace]
    · simp [dedupTrace, h]
  · intro v
    simp [dedupTrace]

theorem sessionStep_fst_flag_indep (s : PollSession) (h : s.hasEvent = true)
    (f f' : Bool) : (sessionStep s f).1 = (sessionStep s f').1 := by
  unfold sessionStep loopCond
  rw [h]
  by_cases hfin : s.finished = true <;>
    by_cases hst : s.started = false <;>
      by_cases hev : s.eventSet = true <;>
        cases hr : s.rounds <;>
          simp [hfin, hst, hev, hr]

theorem sessionStep_snd_flag (s : PollSession) (h : s.hasEvent = true) (f : Bool) :
    (sessionStep s f).2 = f := by
  unfold sessionStep loopCond
  rw [h]
  by_cases hfin : s.finished = true <;>
    by_cases hst : s.started = false <;>
      by_cases hev : s.eventSet = true <;>
        cases hr : s.rounds <;>
          simp [hfin, hst, hev, hr]

theorem sessionStep_hasEvent (s : PollSession) (f : Bool) :
    (sessionStep s f).1.hasEvent = s.hasEvent := by
  unfold sessionStep loopCond
  by_cases hfin : s.finished = true <;>
    by_cases hst : s.started = false <;>
      by_cases hhe : s.hasEvent = true <;>
        by_cases hev : s.eventSet = true <;>
          cases f <;> cases hr : s.rounds <;>
            simp [hfin, hst, hhe, hev, hr]

theorem runPoll_b_eq_solo (ms : List Move) (st : PollPair)
    (hb : st.b.hasEvent = true) : (runPoll st ms).b = runSoloB st.b ms := by
  induction ms generalizing st with
  | nil => rfl
  | cons m rest ih =>
    cases m with
    | stepA =>
        have := ih (applyMove st .stepA) (by simpa [applyMove] using hb)
        simpa [runPoll, runSoloB, applyMove, soloStepB, List.foldl] using this
    | stopA =>
        have := ih (applyMove st .stopA) (by simpa [applyMove] using hb)
        simpa [runPoll, runSoloB, applyMove, soloStepB, List.foldl] using this
    | stepB =>
        have hb' : (applyMove st .stepB).b.hasEvent = true := by
          simpa [applyMove, sessionStep_hasEvent] using hb
        have := ih (applyMove st .stepB) hb'
        simp only [runPoll, runSoloB, List.foldl] at this ⊢
        rw [this]
        have he : (applyMove st .stepB).b = soloStepB st.b .stepB := by
          simp [applyMove, soloStepB, sessionStep_fst_flag_indep st.b hb st.streaming true]
        rw [he]
    | stopB =>
        have hb' : (applyMove st .stopB).b.hasEvent = true := by
          simpa [applyMove] using hb
        have := ih (applyMove st .stopB) hb'
        simp only [runPoll, runSoloB, List.foldl] at this ⊢
        rw [this]
        rfl

theorem foldl_max_init_le (a : ℚ) (l : List ℚ) : a ≤ l.foldl max a := by
  induction l generalizing a with
  | nil => simp
  | cons x xs ih => exact le_trans (le_max_left a x) (ih (max a x))

theorem le_foldl_max (l : List ℚ) (a x : ℚ) (hx : x ∈ l) : x ≤ l.foldl max a := by
  induction l generalizing a with
  | nil => cases hx
  | cons y ys ih =>
    rcases List.mem_cons.mp hx with h | h
    · subst h
      exact le_trans (le_max_right a x) (foldl_max_init_le _ _)
    · exact ih _ h

theorem foldl_max_mem (l : List ℚ) (a : ℚ) : l.foldl max a = a ∨ l.foldl max a ∈ l := by
  induction l generalizing a with
  | nil => left; rfl
  | cons x xs ih =>
    rcases ih (max a x) with h | h
    · rcases max_cases a x with ⟨he, _⟩ | ⟨he, _⟩
      · left
        rw [List.foldl_cons, h, he]
      · right
        rw [List.foldl_cons, h, he]
        exact List.mem_cons_self x xs
    · right
      exact List.mem_cons_of_mem _ h

theorem listMax_mem (l : List ℚ) (h : l ≠ []) : listMax l ∈ l := by
  cases l with
  | nil => exact absurd rfl h
  | cons p ps =>
    rcases foldl_max_mem ps p with h1 | h1
    · rw [listMax, h1]
      exact List.mem_cons_self p ps
    · exact List.mem_cons_of_mem _ (by rw [listMax]; exact h1)

theorem le_listMax (l : List ℚ) (x : ℚ) (hx : x ∈ l) : x ≤ listMax l := by
  cases l with
  | nil => cases hx
  | cons p ps =>
    rcases List.mem_cons.mp hx with h | h
    · subst h
      exact foldl_max_init_le x ps
    · exact le_foldl_max ps p x h

/-- C2 counterexample: for a market whose upstream payload carries an empty
outcome-price array, `get_quote` does not fail — it returns a quote whose
`value` is the fabricated default `0` (dto.py line 150, `max(prices) if
prices else 0.0`); the mapper path does the same for any outcome index out
of range of the price array (mapper.py line 63). -/
theorem c2_fabricated_zero_counterexample :
    predictions_get_quote c2Catalog ("new-market")
        = .ok { source := .predictions, symbol := "Will it happen?", value := 0,
                volume := none, timestamp := .captureTime, metadata := some {} }
      ∧ (market_to_quote c2Market 0).value = 0 :=
  ⟨rfl, rfl⟩

/-- C2 amended: `get_quote` fails with NotFound exactly when the symbol is
absent upstream and otherwise returns the DTO-mapped quote, whose `value`
and `timestamp` are structurally present; but absence of price data does
*not* surface as a failure: the DTO value is a fabricated `0` on an empty
price list (else the maximum outcome probability — a member and upper bound
of the list), and the mapper value is a fabricated `0` whenever the
designated outcome index is out of range (else the indexed price). -/
theorem c2_get_quote_value (catalog : String → Option RawMarket) (symbol : String) :
    (catalog symbol = none →
      predictions_get_quote catalog symbol = .error (.notFound symbol))
    ∧ (∀ m, catalog symbol = some m →
        predictions_get_quote catalog symbol = .ok (dto_to_market_quote m))
    ∧ (∀ m, parse_outcome_prices m = [] → (dto_to_market_quote m).value = 0)
    ∧ (∀ m, parse_outcome_prices m ≠ [] →
        (dto_to_market_quote m).value ∈ parse_outcome_prices m
        ∧ ∀ p ∈ parse_outcome_prices m, p ≤ (dto_to_market_quote m).value)
    ∧ (∀ m i, (parse_outcome_prices m).length ≤ i → (market_to_quote m i).value = 0)
    ∧ (∀ m i, (market_to_quote m i).value = (parse_outcome_prices m).getD i 0) := by
  refine ⟨?_, ?_, ?_, ?_, ?_, ?_⟩
  · intro h
    simp [predictions_get_quote, h]
  · intro m h
    simp [predictions_get_quote, h]
  · intro m h
    simp [dto_to_market_quote, dtoValue, h]
  · intro m h
    refine ⟨?_, ?_⟩
    · simp only [dto_to_market_quote, dtoValue, if_neg h]
      exact listMax_mem _ h
    · intro p hp
      simp only [dto_to_market_quote, dtoValue, if_neg h]
      exact le_listMax _ p hp
  · intro m i h
    simp [market_to_quote, List.getElem?_eq_none h]
  · intro m i
    rfl

/-- NotFound side of `c2_get_quote_value` at a concrete absent symbol. -/
theorem c2_get_quote_value_witness :
    predictions_get_quote c2Catalog ("no-such-market")
      = .error (.notFound ("no-such-market")) :=
  (c2_get_quote_value c2Catalog ("no-such-market")).1 rfl

theorem gather_overview_foldl_aux (results : List (Except PError (List MarketQuote)))
    (acc : List MarketQuote) :
    results.foldl (fun quotes result =>
        match result with
        | .ok qs => quotes ++ qs
        | .error _ => quotes) acc
      = acc ++ (results.filterMap Except.toOption).flatten := by
  induction results generalizing acc with
  | nil => simp
  | cons r rs ih => cases r <;> simp [ih, Except.toOption, List.append_assoc]

/-- C4: the overview fan-out is a total function of the per-provider
outcomes — it returns the concatenation of the successful providers' quote
lists, omitting every provider that failed, and returns `[]` (not an error)
when every provider fails; `get_overview` is this fan-out over the three
providers. -/
theorem c4_overview_fanout_total
    (stocks crypto predictions : Except PError (List MarketQuote))
    (results : List (Except PError (List MarketQuote))) :
    _gather_overview results = (results.filterMap Except.toOption).flatten
    ∧ ((∀ r ∈ results, Except.toOption r = none) → _gather_overview results = [])
    ∧ get_overview stocks crypto predictions
        = _gather_overview [stocks, crypto, predictions] := by
  refine ⟨?_, ?_, rfl⟩
  · simpa using gather_overview_foldl_aux results []
  · intro h
    have h1 := gather_overview_foldl_aux results []
    rw [List.filterMap_eq_nil_iff.mpr h] at h1
    simpa using h1

/-- All-providers-fail side of `c4_overview_fanout_total` at concrete
failures. -/
theorem c4_overview_fanout_total_witness :
    _gather_overview [.error (.notFound ("stocks down")), .error .unsupported,
      .error (.notFound ("predictions down"))] = [] :=
  (c4_overview_fanout_total (.ok []) (.ok []) (.ok [])
      [.error (.notFound ("stocks down")), .error .unsupported,
        .error (.notFound ("predictions down"))]).2.1 (by decide)

/-- C5: for a consistent upstream (the fetched market's own `slug` field,
when present, is the requested slug), resolving a slug from an empty cache
issues exactly one catalog fetch; resolving the same slug again is a cache
hit returning the cached market with no fetch; and resolving the market's
condition id is likewise a hit through the secondary index, with no second
fetch. -/
theorem c5_resolver_caching (u : GammaUpstream) (s cid : String) (m : RawMarket)
    (hfetch : u.fetchBySlug s = some m)
    (hslug : m.slug = some s ∨ m.slug = none)
    (hcid : m.conditionId = some cid)
    (hcid_ne : cid ≠ "")
    (hs_ne : s ≠ "")
    (hs_hex : pyStartswith s ("0x") = false) :
    resolve u emptyCache s = ⟨.ok m, emptyCache.set s m, 1⟩
    ∧ resolve u (emptyCache.set s m) s = ⟨.ok m, emptyCache.set s m, 0⟩
    ∧ resolve u (emptyCache.set s m) cid = ⟨.ok m, emptyCache.set s m, 0⟩ := by
  have hkey : m.slug.getD s = s := by rcases hslug with h | h <;> simp [h]
  have hset_slug : (emptyCache.set s m).by_slug = [(s, m)] := by
    simp [PolymarketMarketCache.set, emptyCache, dset]
  have hset_cond : (emptyCache.set s m).by_condition_id = [(cid, s)] := by
    simp [PolymarketMarketCache.set, emptyCache, hcid, hcid_ne, dset]
  have hget_s : (emptyCache.set s m).get s = some m := by
    simp [PolymarketMarketCache.get, hset_slug, dget]
  have hget_cid : (emptyCache.set s m).get cid = some m := by
    by_cases hcs : s = cid
    · simp [PolymarketMarketCache.get, hset_slug, dget, hcs]
    · simp [PolymarketMarketCache.get, hset_slug, hset_cond, dget, hcs, hs_ne]
  refine ⟨?_, ?_, ?_⟩
  · simp [resolve, PolymarketMarketCache.get, emptyCache, dget, hs_hex, hfetch, hkey]
  · simp [resolve, hget_s]
  · simp [resolve, hget_cid]

/-- `c5_resolver_caching` at the concrete market and upstream. -/
theorem c5_resolver_caching_witness :
    resolve c5Upstream emptyCache ("will-btc-hit-100k")
        = ⟨.ok c5Market, emptyCache.set ("will-btc-hit-100k") c5Market, 1⟩
    ∧ resolve c5Upstream (emptyCache.set ("will-btc-hit-100k") c5Market)
        ("will-btc-hit-100k")
        = ⟨.ok c5Market, emptyCache.set ("will-btc-hit-100k") c5Market, 0⟩
    ∧ resolve c5Upstream (emptyCache.set ("will-btc-hit-100k") c5Market)
        ("0xabc123")
        = ⟨.ok c5Market, emptyCache.set ("will-btc-hit-100k") c5Market, 0⟩ :=
  c5_resolver_caching c5Upstream ("will-btc-hit-100k") ("0xabc123") c5Market
    rfl (Or.inl rfl) rfl (by decide) (by decide) (by decide)

/-- C6: `clear` drops all three cache maps in the one call: afterwards every
slug and condition-id lookup and every token-id lookup misses, and a
subsequent resolve of a previously-cached slug issues a fresh upstream
fetch. -/
theorem c6_cache_clear (c : PolymarketMarketCache) (u : GammaUpstream)
    (s : String) (m : RawMarket)
    (hfetch : u.fetchBySlug s = some m)
    (hs_hex : pyStartswith s ("0x") = false) :
    c.clear = emptyCache
    ∧ (∀ k, c.clear.get k = none)
    ∧ (∀ t, c.clear.get_slug_for_token t = none)
    ∧ (resolve u c.clear s).fetches = 1
    ∧ (resolve u c.clear s).result = .ok m := by
  refine ⟨rfl, fun k => rfl, fun t => rfl, ?_, ?_⟩
  · simp [resolve, PolymarketMarketCache.clear, PolymarketMarketCache.get,
      emptyCache, dget, hs_hex, hfetch]
  · simp [resolve, PolymarketMarketCache.clear, PolymarketMarketCache.get,
      emptyCache, dget, hs_hex, hfetch]

/-- `c6_cache_clear` applied after caching a concrete market. -/
theorem c6_cache_clear_witness :
    ((emptyCache.set ("will-btc-hit-100k") c5Market).clear.get
        ("will-btc-hit-100k") = none)
    ∧ (resolve c5Upstream (emptyCache.set ("will-btc-hit-100k") c5Market).clear
        ("will-btc-hit-100k")).fetches = 1 :=
  ⟨(c6_cache_clear (emptyCache.set ("will-btc-hit-100k") c5Market) c5Upstream
      ("will-btc-hit-100k") c5Market rfl (by decide)).2.1 ("will-btc-hit-100k"),
   (c6_cache_clear (emptyCache.set ("will-btc-hit-100k") c5Market) c5Upstream
      ("will-btc-hit-100k") c5Market rfl (by decide)).2.2.2.1⟩

/-- C7: the repo's own parser (`_parse_clob_token_ids`) extracts the two
token ids from the wire string; but when the resolver fetches and caches
this market, `cache.set` iterates the *unparsed* string value, so the token
map records the string's characters: neither token id resolves, while the
one-character strings do (`"["` maps to outcome index 0), and the map gets
one entry per distinct character. -/
theorem c7_token_map_failing_eval :
    _parse_clob_token_ids (.jsonStr c7TokenStr) = ["11111", "22222"]
    ∧ ((resolve c7Upstream emptyCache ("btc-100k")).cache.get_slug_for_token
        ("11111") = none)
    ∧ ((resolve c7Upstream emptyCache ("btc-100k")).cache.get_slug_for_token
        ("22222") = none)
    ∧ ((resolve c7Upstream emptyCache ("btc-100k")).cache.get_slug_for_token
        ("[") = some ("btc-100k", 0))
    ∧ (clobIter (.jsonStr c7TokenStr)).length = 17 := by
  refine ⟨?_, ?_, ?_, ?_, ?_⟩ <;> decide

/-- C8 counterexample: the legacy prediction-market provider's `get_history`
(provider.py lines 200-221) does not fail with Unsupported — for a
resolvable symbol it silently returns a one-element list holding the current
quote, whatever the requested time range. -/
theorem c8_history_counterexample :
    legacy_get_history c8Upstream [] ("election-2026") 0 100
        = .ok [market_to_quote c8Market 0]
    ∧ legacy_get_history c8Upstream [] ("election-2026") 0 100
        ≠ .error .unsupported := by
  exact ⟨by decide, by decide⟩

/-- C8 amended: the predictions provider built on the ABC inherits the
default `get_history`, which fails with Unsupported for every symbol and
time range; the legacy provider.py provider instead returns exactly its
current `get_quote` result wrapped as a one-element history (propagating
NotFound when the symbol cannot be resolved). -/
theorem c8_history_unsupported (symbol : String) (startT endT : Nat)
    (u : GammaUpstream) (cache : List (String × RawMarket)) :
    predictions_get_history symbol startT endT = .error .unsupported
    ∧ legacy_get_history u cache symbol startT endT
        = (legacy_get_quote u cache symbol).map (fun q => [q]) := by
  refine ⟨rfl, ?_⟩
  unfold legacy_get_history legacy_get_quote
  cases legacy_get_market u cache symbol with
  | error e => rfl
  | ok p => rfl

theorem insertDesc_perm (x : MarketQuote) (l : List MarketQuote) :
    List.Perm (insertDesc x l) (x :: l) := by
  induction l with
  | nil => exact List.Perm.refl _
  | cons y ys ih =>
    by_cases h : _change_key y < _change_key x
    · simp only [insertDesc, if_pos h]
      exact List.Perm.refl _
    · simp only [insertDesc, if_neg h]
      exact (ih.cons y).trans (List.Perm.swap x y ys)

theorem insertDesc_sorted (x : MarketQuote) (l : List MarketQuote)
    (hl : List.Sorted changeGE l) : List.Sorted changeGE (insertDesc x l) := by
  induction l with
  | nil => simp [insertDesc, List.sorted_singleton]
  | cons y ys ih =>
    rcases List.sorted_cons.mp hl with ⟨hy, hys⟩
    by_cases h : _change_key y < _change_key x
    · simp only [insertDesc, if_pos h]
      refine List.sorted_cons.mpr ⟨?_, hl⟩
      intro b hb
      rcases List.mem_cons.mp hb with hb | hb
      · subst hb
        exact le_of_lt h
      · exact le_trans (hy b hb) (le_of_lt h)
    · simp only [insertDesc, if_neg h]
      refine List.sorted_cons.mpr ⟨?_, ih hys⟩
      intro b hb
      rcases List.mem_cons.mp ((insertDesc_perm x ys).mem_iff.mp hb) with hb | hb
      · subst hb
        exact le_of_not_lt h
      · exact hy b hb

theorem sortDesc_foldl_perm (l acc : List MarketQuote) :
    List.Perm (l.foldl (fun acc q => insertDesc q acc) acc) (acc ++ l) := by
  induction l generalizing acc with
  | nil => simp
  | cons q qs ih =>
    have h1 := ih (insertDesc q acc)
    have h2 : List.Perm (insertDesc q acc ++ qs) ((q :: acc) ++ qs) :=
      (insertDesc_perm q acc).append_right qs
    have h3 : List.Perm ((q :: acc) ++ qs) (acc ++ q :: qs) := List.perm_middle.symm
    exact (h1.trans h2).trans h3

theorem sortDesc_foldl_sorted (l acc : List MarketQuote)
    (hacc : List.Sorted changeGE acc) :
    List.Sorted changeGE (l.foldl (fun acc q => insertDesc q acc) acc) := by
  induction l generalizing acc with
  | nil => exact hacc
  | cons q qs ih => exact ih _ (insertDesc_sorted q acc hacc)

/-- C9: `get_top_movers` stable-sorts the combined overview quotes by
`abs(metadata.change_24h)` descending — a missing metadata bag or key counts
as `0`, so such quotes sort last — and truncates to `limit`: the sorted list
is a permutation of the input sorted under the descending key order; on
quotes carrying changes `+5, -12, (missing), +3` the result is the
`-12, +5, +3, missing` order, truncated to the requested limit. -/
theorem c9_top_movers (quotes : List MarketQuote) (limit : Nat) :
    get_top_movers quotes limit = (sortByChangeDesc quotes).take limit
    ∧ List.Perm (sortByChangeDesc quotes) quotes
    ∧ List.Sorted changeGE (sortByChangeDesc quotes)
    ∧ (∀ src sym v vol ts,
        _change_key ⟨src, sym, v, vol, ts, none⟩ = 0
        ∧ _change_key ⟨src, sym, v, vol, ts, some {}⟩ = 0
        ∧ ∀ ch, _change_key ⟨src, sym, v, vol, ts, some { change_24h := some ch }⟩ = |ch|)
    ∧ get_top_movers [c9A, c9B, c9C, c9D] 10 = [c9B, c9A, c9D, c9C]
    ∧ get_top_movers [c9A, c9B, c9C, c9D] 2 = [c9B, c9A] := by
  refine ⟨rfl, ?_, ?_, ?_, by decide, by decide⟩
  · simpa using sortDesc_foldl_perm quotes []
  · exact sortDesc_foldl_sorted quotes [] (List.sorted_nil)
  · intro src sym v vol ts
    exact ⟨rfl, rfl, fun ch => rfl⟩

/-- C10: after `set slug market` where the market carries a truthy condition
id `c` distinct from the stored slugs, `get slug` and `get c` both return
exactly the stored market (primary key and secondary index agree); and `get`
of a key that is neither a stored slug nor a recorded condition id returns
`none` rather than raising. -/
theorem c10_cache_get_set (st : PolymarketMarketCache) (slug : String)
    (market : RawMarket) (c : String)
    (hc : market.conditionId = some c)
    (hc_ne : c ≠ "")
    (hslug_ne : slug ≠ "")
    (hcs : c ≠ slug)
    (hcslug : dget st.by_slug c = none) :
    (st.set slug market).get slug = some market
    ∧ (st.set slug market).get c = some market
    ∧ (∀ k, dget st.by_slug k = none → dget st.by_condition_id k = none →
        st.get k = none) := by
  have hset_slug : (st.set slug market).by_slug = dset st.by_slug slug market := rfl
  have hset_cond : (st.set slug market).by_condition_id
      = dset st.by_condition_id c slug := by
    simp [PolymarketMarketCache.set, hc, hc_ne]
  refine ⟨?_, ?_, ?_⟩
  · simp [PolymarketMarketCache.get, hset_slug, dget_dset_self]
  · have h1 : dget (dset st.by_slug slug market) c = none := by
      rw [dget_dset_ne _ _ (fun h => hcs h.symm)]
      exact hcslug
    have h2 : dget (dset st.by_condition_id c slug) c = some slug :=
      dget_dset_self _ _ _
    simp [PolymarketMarketCache.get, PolymarketMarketCache.set, hc, hc_ne,
      h1, h2, hslug_ne, dget_dset_self]
  · intro k h1 h2
    simp [PolymarketMarketCache.get, h1, h2]

/-- `c10_cache_get_set` at a concrete market in an empty cache. -/
theorem c10_cache_get_set_witness :
    (emptyCache.set ("will-btc-hit-100k") c5Market).get ("will-btc-hit-100k")
        = some c5Market
    ∧ (emptyCache.set ("will-btc-hit-100k") c5Market).get ("0xabc123")
        = some c5Market :=
  ⟨(c10_cache_get_set emptyCache ("will-btc-hit-100k") c5Market ("0xabc123")
      rfl (by decide) (by decide) (by decide) rfl).1,
   (c10_cache_get_set emptyCache ("will-btc-hit-100k") c5Market ("0xabc123")
      rfl (by decide) (by decide) (by decide) rfl).2.1⟩

/-- C3 counterexample: the prediction-market WebSocket `stream` has *no*
per-invocation stop signal; its loop guard is the shared provider flag
`self._streaming`.  In the concrete interleaving below, session A's
connection closing runs its `finally`, clearing the shared flag, and
concurrently active session B exits with its two messages unconsumed —
whereas B alone would have emitted both.  So one session's termination does
stop and perturb the other. -/
theorem c3_shared_flag_counterexample :
    (wsRun c3WsInit [.stepA, .stepB, .stepA, .stepA, .stepB]).b.finished = true
    ∧ (wsRun c3WsInit [.stepA, .stepB, .stepA, .stepA, .stepB]).b.emitted = []
    ∧ (wsRun c3WsInit [.stepA, .stepB, .stepA, .stepA, .stepB]).b.msgs = [2, 3]
    ∧ (wsRun c3WsInit [.stepB, .stepB, .stepB, .stepB]).b.emitted = [2, 3] := by
  refine ⟨?_, ?_, ?_, ?_⟩ <;> decide

/-- C3 amended: for `stream_by_polling` sessions that each receive their own
per-invocation `stop_event`, no move of session A — including setting A's
stop signal — affects session B: under every interleaving B's entire state
(hence its emissions) equals its solo run; and a session whose own event is
set finishes at its next slice without emitting.  The WebSocket stream of the
prediction-market provider does not have this property (see the
counterexample): it has no per-invocation signal and its sessions share the
provider-wide `_streaming` flag. -/
theorem c3_per_event_no_interference (ms : List Move) (st : PollPair)
    (hb : st.b.hasEvent = true) :
    (runPoll st ms).b = runSoloB st.b ms
    ∧ (∀ s f, s.hasEvent = true → s.eventSet = true → s.started = true →
        s.finished = false →
        (sessionStep s f).1.finished = true
        ∧ (sessionStep s f).1.emitted = s.emitted) := by
  refine ⟨runPoll_b_eq_solo ms st hb, ?_⟩
  intro s f h1 h2 h3 h4
  unfold sessionStep loopCond
  simp [h1, h2, h3, h4]

/-- `c3_per_event_no_interference` at a concrete schedule that stops A
mid-stream. -/
theorem c3_per_event_no_interference_witness :
    c3Pair.b.hasEvent = true
    ∧ ((runPoll c3Pair c3Sched).b = runSoloB c3Pair.b c3Sched
      ∧ (∀ s f, s.hasEvent = true → s.eventSet = true → s.started = true →
          s.finished = false →
          (sessionStep s f).1.finished = true
          ∧ (sessionStep s f).1.emitted = s.emitted)) :=
  ⟨rfl, c3_per_event_no_interference c3Sched c3Pair rfl⟩

end MarketDataAgg

